import Mathlib

/-!
Verification of the cross-instrument conversion engine and the order-flow
analytics of this repository, as a shallow embedding in Lean 4.

Numeric modelling: JavaScript `number` arithmetic is modelled over exact
fields — `ℚ` for the order-flow analytics (`nq-prediction/index.ts`), which
use only field operations, `Math.floor` and comparisons, and `ℝ` for the
converter/carry functions, which use `Math.exp`, and for `analyzeBlockTrades`,
which uses `Math.sqrt`.  JavaScript `Date` values are modelled by civil
(proleptic Gregorian, UTC) dates via a day-count function; `x.sort(cmp)` is
modelled by a stable insertion sort (Array.prototype.sort is stable);
`Object.entries` over an object whose keys are array indices enumerates the
keys in ascending numeric order, modelled by an ascending list of bins.
-/

/-! ## Data model: OHLCV bars (`nq-prediction/index.ts`, interface OHLCVBar) -/

/-- One OHLCV bar.  The source interface also carries a `date : string`
field, which none of the analytics below read; it is omitted. -/
structure OHLCVBar where
  open' : ℚ
  high : ℚ
  low : ℚ
  close : ℚ
  volume : ℚ
  deriving DecidableEq

/-- `bars.slice(-n)`: the last `n` elements of a list (all of them when the
list is shorter than `n`). -/
def takeLast {α : Type} (n : Nat) (l : List α) : List α := l.drop (l.length - n)

/-! ## `calculateOrderFlowImbalance` (nq-prediction/index.ts lines 194–215) -/

/-- Result record of `calculateOrderFlowImbalance`. -/
structure OFIResult where
  ofi : ℚ
  aggressor : String

/-- The per-bar contribution added to `totalOFI` for a bar that is not
skipped: `closePosition = (close - low)/(high - low)`,
`buyVolume = volume * closePosition`, `sellVolume = volume * (1 - closePosition)`,
contribution `(buyVolume - sellVolume) / volume`. -/
def ofiTerm (bar : OHLCVBar) : ℚ :=
  let range := bar.high - bar.low
  let closePosition := (bar.close - bar.low) / range
  let buyVolume := bar.volume * closePosition
  let sellVolume := bar.volume * (1 - closePosition)
  (buyVolume - sellVolume) / bar.volume

/-- The bars of the last-10 window whose term the loop actually evaluates:
bars with `high - low = 0` are skipped by `continue`. -/
def ofiEvaluatedBars (bars : List OHLCVBar) : List OHLCVBar :=
  (takeLast 10 bars).filter (fun bar => decide (bar.high - bar.low ≠ 0))

/-- `calculateOrderFlowImbalance`: early return on the empty list, otherwise
the loop over `bars.slice(-10)` accumulating `ofiTerm` for non-degenerate
bars (`continue` is modelled as adding `0`), divided by `recentBars.length`. -/
def calculateOrderFlowImbalance (bars : List OHLCVBar) : OFIResult :=
  if bars.length = 0 then ⟨0, "BALANCED"⟩
  else
    let recentBars := takeLast 10 bars
    let totalOFI := (recentBars.map (fun bar =>
      if bar.high - bar.low = 0 then 0 else ofiTerm bar)).sum
    let avgOFI := totalOFI / (recentBars.length : ℚ)
    let aggressor :=
      if avgOFI > 1/10 then "BUYERS"
      else if avgOFI < -(1/10) then "SELLERS"
      else "BALANCED"
    ⟨avgOFI, aggressor⟩

/-! ## `calculateVolumeProfile` (nq-prediction/index.ts lines 217–291) -/

/-- Result record of `calculateVolumeProfile`. -/
structure VolumeProfile where
  poc : ℚ
  valueAreaHigh : ℚ
  valueAreaLow : ℚ
  biggestBuyersBelow : ℚ
  biggestSellersAbove : ℚ

/-- `Math.min(...xs)` on a nonempty array (junk value 0 on `[]`, never used). -/
def listMin : List ℚ → ℚ
  | [] => 0
  | x :: xs => xs.foldl min x

/-- `Math.max(...xs)` on a nonempty array (junk value 0 on `[]`, never used). -/
def listMax : List ℚ → ℚ
  | [] => 0
  | x :: xs => xs.foldl max x

/-- `Math.min(...xs)` on a nonempty array of indices. -/
def listMinN : List Nat → Nat
  | [] => 0
  | x :: xs => xs.foldl min x

/-- `Math.max(...xs)` on a nonempty array of indices. -/
def listMaxN : List Nat → Nat
  | [] => 0
  | x :: xs => xs.foldl max x

/-- `minPrice = Math.min(...bars.map(b => b.low))`. -/
def vpMinPrice (bars : List OHLCVBar) : ℚ := listMin (bars.map (·.low))

/-- `maxPrice = Math.max(...bars.map(b => b.high))`. -/
def vpMaxPrice (bars : List OHLCVBar) : ℚ := listMax (bars.map (·.high))

/-- `binSize = (priceRange || 1) / bins` where `priceRange = maxPrice - minPrice`. -/
def vpBinSize (bars : List OHLCVBar) (bins : Nat) : ℚ :=
  let priceRange := vpMaxPrice bars - vpMinPrice bars
  (if priceRange = 0 then 1 else priceRange) / (bins : ℚ)

/-- The bar midpoint `(high + low) / 2` used to assign a bar to a bin. -/
def midPrice (bar : OHLCVBar) : ℚ := (bar.high + bar.low) / 2

/-- `binIdx = Math.min(Math.max(Math.floor((midPrice - minPrice)/binSize), 0), bins - 1)`. -/
def binIdxOf (bars : List OHLCVBar) (bins : Nat) (bar : OHLCVBar) : Nat :=
  (min (max (Int.floor ((midPrice bar - vpMinPrice bars) / vpBinSize bars bins)) 0)
    ((bins : Int) - 1)).toNat

/-- `volumeAtPrice[b].total`: the accumulated volume of the bars assigned to bin `b`. -/
def binTotal (bars : List OHLCVBar) (bins : Nat) (b : Nat) : ℚ :=
  (bars.map (fun bar => if binIdxOf bars bins bar = b then bar.volume else 0)).sum

/-- The close-position heuristic with the `(high - low) || 1` guard used for
the buy/sell split of a bin's volume. -/
def closePositionOf (bar : OHLCVBar) : ℚ :=
  let range := if bar.high - bar.low = 0 then 1 else bar.high - bar.low
  (bar.close - bar.low) / range

/-- `volumeAtPrice[b].buy`. -/
def binBuy (bars : List OHLCVBar) (bins : Nat) (b : Nat) : ℚ :=
  (bars.map (fun bar =>
    if binIdxOf bars bins bar = b then bar.volume * closePositionOf bar else 0)).sum

/-- `volumeAtPrice[b].sell`. -/
def binSell (bars : List OHLCVBar) (bins : Nat) (b : Nat) : ℚ :=
  (bars.map (fun bar =>
    if binIdxOf bars bins bar = b then bar.volume * (1 - closePositionOf bar) else 0)).sum

/-- The keys of the `volumeAtPrice` record in the order `Object.entries`
enumerates them: the bins that received at least one bar, ascending. -/
def presentBins (bars : List OHLCVBar) (bins : Nat) : List Nat :=
  (List.range bins).filter (fun b => bars.any (fun bar => decide (binIdxOf bars bins bar = b)))

/-- One iteration of the POC loop: keep the bin whose total strictly exceeds
the running maximum `acc.2`. -/
def pocStep (t : Nat → ℚ) (acc : Nat × ℚ) (b : Nat) : Nat × ℚ :=
  if t b > acc.2 then (b, t b) else acc

/-- The POC loop: starting from `pocBin = 0, maxVolume = 0`, scan the entries
in ascending key order and keep the first bin whose total strictly exceeds
the running maximum. -/
def pocBin (bars : List OHLCVBar) (bins : Nat) : Nat :=
  ((presentBins bars bins).foldl (pocStep (binTotal bars bins)) ((0 : Nat), (0 : ℚ))).1

/-- `totalVolume`: the sum of the totals of all entries of `volumeAtPrice`. -/
def totalVolume (bars : List OHLCVBar) (bins : Nat) : ℚ :=
  ((presentBins bars bins).map (binTotal bars bins)).sum

/-- Stable insertion of `x` into a list sorted descending by key `t`:
`x` goes after every element whose key is ≥ its own. -/
def insertDesc (t : Nat → ℚ) (x : Nat) : List Nat → List Nat
  | [] => [x]
  | y :: ys => if t x > t y then x :: y :: ys else y :: insertDesc t x ys

/-- Stable descending sort by key `t`, modelling the stable
`entries.sort((a, b) => b.total - a.total)`. -/
def sortDesc (t : Nat → ℚ) (l : List Nat) : List Nat :=
  l.foldl (fun acc x => insertDesc t x acc) []

/-- `sortedBins`: the entry keys sorted by descending total. -/
def sortedBins (bars : List OHLCVBar) (bins : Nat) : List Nat :=
  sortDesc (binTotal bars bins) (presentBins bars bins)

/-- The value-area loop: push bins in sorted order, breaking (after the push)
once the cumulative volume reaches the threshold. -/
def takeVA (t : Nat → ℚ) (threshold : ℚ) : List Nat → ℚ → List Nat
  | [], _ => []
  | b :: rest, cum =>
    let c := cum + t b
    if threshold ≤ c then [b] else b :: takeVA t threshold rest c

/-- `valueAreaBins`: the bins pushed by the 70% loop. -/
def valueAreaBins (bars : List OHLCVBar) (bins : Nat) : List Nat :=
  takeVA (binTotal bars bins) (totalVolume bars bins * (7/10)) (sortedBins bars bins) 0

/-- `Math.min(...valueAreaBins)`. -/
def vaMinBin (bars : List OHLCVBar) (bins : Nat) : Nat := listMinN (valueAreaBins bars bins)

/-- `Math.max(...valueAreaBins)`. -/
def vaMaxBin (bars : List OHLCVBar) (bins : Nat) : Nat := listMaxN (valueAreaBins bars bins)

/-- `poc = minPrice + (pocBin + 0.5) * binSize`. -/
def vpPoc (bars : List OHLCVBar) (bins : Nat) : ℚ :=
  vpMinPrice bars + ((pocBin bars bins : ℚ) + 1/2) * vpBinSize bars bins

/-- `valueAreaHigh = minPrice + (Math.max(...valueAreaBins) + 1) * binSize`. -/
def vpValueAreaHigh (bars : List OHLCVBar) (bins : Nat) : ℚ :=
  vpMinPrice bars + ((vaMaxBin bars bins : ℚ) + 1) * vpBinSize bars bins

/-- `valueAreaLow = minPrice + Math.min(...valueAreaBins) * binSize`. -/
def vpValueAreaLow (bars : List OHLCVBar) (bins : Nat) : ℚ :=
  vpMinPrice bars + (vaMinBin bars bins : ℚ) * vpBinSize bars bins

/-- `valBin = Math.floor((valueAreaLow - minPrice) / binSize)`. -/
def vpValBin (bars : List OHLCVBar) (bins : Nat) : Int :=
  Int.floor ((vpValueAreaLow bars bins - vpMinPrice bars) / vpBinSize bars bins)

/-- `vahBin = Math.floor((valueAreaHigh - minPrice) / binSize)`. -/
def vpVahBin (bars : List OHLCVBar) (bins : Nat) : Int :=
  Int.floor ((vpValueAreaHigh bars bins - vpMinPrice bars) / vpBinSize bars bins)

/-- The `biggestBuyersBelow` scan over the entries (in ascending key order),
exactly as in the source: the accumulator starts at `0`, holds a *price*, and
is compared against the candidate bin's *buy volume*. -/
def vpBiggestBuyersBelow (bars : List OHLCVBar) (bins : Nat) : ℚ :=
  (presentBins bars bins).foldl
    (fun acc (b : Nat) =>
      if (b : Int) < vpValBin bars bins ∧ acc < binBuy bars bins b
      then vpMinPrice bars + ((b : ℚ) + 1/2) * vpBinSize bars bins
      else acc) 0

/-- The `biggestSellersAbove` scan, symmetric to `vpBiggestBuyersBelow`. -/
def vpBiggestSellersAbove (bars : List OHLCVBar) (bins : Nat) : ℚ :=
  (presentBins bars bins).foldl
    (fun acc (b : Nat) =>
      if (b : Int) > vpVahBin bars bins ∧ acc < binSell bars bins b
      then vpMinPrice bars + ((b : ℚ) + 1/2) * vpBinSize bars bins
      else acc) 0

/-- `calculateVolumeProfile(bars, bins = 50)`. -/
def calculateVolumeProfile (bars : List OHLCVBar) (bins : Nat := 50) : VolumeProfile :=
  if bars.length = 0 then ⟨0, 0, 0, 0, 0⟩
  else
    ⟨vpPoc bars bins, vpValueAreaHigh bars bins, vpValueAreaLow bars bins,
     vpBiggestBuyersBelow bars bins, vpBiggestSellersAbove bars bins⟩

/-! ## `analyzeBlockTrades` (nq-prediction/index.ts lines 293–317) -/

/-- Result record of `analyzeBlockTrades`. -/
structure BlockTradesResult where
  blockFlow : ℝ
  direction : String

/-- `stdVolume = Math.sqrt(volumes.reduce((s, v) => s + (v - avg)^2, 0) / volumes.length)`. -/
noncomputable def blockStd (bars : List OHLCVBar) : ℝ :=
  let volumes : List ℝ := bars.map (fun b => (b.volume : ℝ))
  let avgVolume := volumes.sum / (volumes.length : ℝ)
  Real.sqrt ((volumes.map (fun v => (v - avgVolume) ^ 2)).sum / (volumes.length : ℝ))

/-- The z-score divisor `stdVolume || 1` (`stdVolume` is ≥ 0, so the JS
falsiness test is a zero test). -/
noncomputable def blockDivisor (bars : List OHLCVBar) : ℝ :=
  if blockStd bars = 0 then 1 else blockStd bars

/-- `analyzeBlockTrades`: early return for fewer than 20 bars, otherwise
bars of the last-10 window with volume z-score > 2 contribute ±1 by bar
direction. -/
noncomputable def analyzeBlockTrades (bars : List OHLCVBar) : BlockTradesResult :=
  if bars.length < 20 then ⟨0, "NEUTRAL"⟩
  else
    let volumes : List ℝ := bars.map (fun b => (b.volume : ℝ))
    let avgVolume := volumes.sum / (volumes.length : ℝ)
    let blockFlow := (takeLast 10 bars).foldl
      (fun acc bar =>
        let zScore := ((bar.volume : ℝ) - avgVolume) / blockDivisor bars
        if zScore > 2 then acc + (if bar.close > bar.open' then 1 else -1) else acc)
      (0 : ℝ)
    let direction :=
      if blockFlow > 0 then "INSTITUTIONAL BUYING"
      else if blockFlow < 0 then "INSTITUTIONAL SELLING"
      else "NEUTRAL"
    ⟨blockFlow, direction⟩

/-! ## Converter data model (futures converter module, `part_002`) -/

/-- Live price snapshot.  The source interface also carries
`lastUpdate : Date`, which the conversion functions never read; omitted. -/
structure MarketData where
  qqq : ℝ
  nq : ℝ
  ndx : ℝ
  spy : ℝ
  es : ℝ
  spx : ℝ
  gld : ℝ
  gc : ℝ

/-- Carry parameters.  The source interface also carries
`nextExpiration : string` and `lastParamUpdate : Date`, which the pricing
functions never read; omitted. -/
structure MarketParams where
  riskFreeRate : ℝ
  ndxDivYield : ℝ
  spxDivYield : ℝ
  daysToExp : ℝ

/-- `calculateCarryPremium(spotPrice, rate, divYield, daysToExp)`:
`spot * exp((r - d) * t)` with `t = daysToExp/365`, `r = rate/100`,
`d = divYield/100`. -/
noncomputable def calculateCarryPremium (spotPrice rate divYield daysToExp : ℝ) : ℝ :=
  let t := daysToExp / 365
  let r := rate / 100
  let d := divYield / 100
  let carryMultiplier := Real.exp ((r - d) * t)
  spotPrice * carryMultiplier

/-- `convert(value, fromTicker, toTicker, marketData, params)` — the live
market-data variant (part_002 lines 772–867).  Every branch of the source
returns a number; the `number | null` return type is modelled as `Option ℝ`
with `some` in every branch. -/
noncomputable def convert (value : ℝ) (fromTicker toTicker : String)
    (marketData : MarketData) (params : MarketParams) : Option ℝ :=
  if fromTicker = toTicker then some value
  else if fromTicker = "GLD" ∧ toTicker = "GC" then
    some (value * (marketData.gc / marketData.gld))
  else if fromTicker = "GC" ∧ toTicker = "GLD" then
    some (value * (marketData.gld / marketData.gc))
  else if fromTicker = "QQQ" ∧ toTicker = "SPY" then
    some (value * (marketData.spy / marketData.qqq))
  else if fromTicker = "SPY" ∧ toTicker = "QQQ" then
    some (value * (marketData.qqq / marketData.spy))
  else if fromTicker = "NDX" ∧ toTicker = "SPX" then
    some (value * (marketData.spx / marketData.ndx))
  else if fromTicker = "SPX" ∧ toTicker = "NDX" then
    some (value * (marketData.ndx / marketData.spx))
  else if fromTicker = "NQ" ∧ toTicker = "ES" then
    some (value * (marketData.es / marketData.nq))
  else if fromTicker = "ES" ∧ toTicker = "NQ" then
    some (value * (marketData.nq / marketData.es))
  else if fromTicker = "QQQ" ∧ toTicker = "NDX" then
    some (value * (marketData.ndx / marketData.qqq))
  else if fromTicker = "NDX" ∧ toTicker = "QQQ" then
    some (value * (marketData.qqq / marketData.ndx))
  else if fromTicker = "SPY" ∧ toTicker = "SPX" then
    some (value * (marketData.spx / marketData.spy))
  else if fromTicker = "SPX" ∧ toTicker = "SPY" then
    some (value * (marketData.spy / marketData.spx))
  else if fromTicker = "QQQ" ∧ toTicker = "NQ" then
    some (value * (marketData.nq / marketData.qqq))
  else if fromTicker = "NQ" ∧ toTicker = "QQQ" then
    some (value * (marketData.qqq / marketData.nq))
  else if fromTicker = "SPY" ∧ toTicker = "ES" then
    some (value * (marketData.es / marketData.spy))
  else if fromTicker = "ES" ∧ toTicker = "SPY" then
    some (value * (marketData.spy / marketData.es))
  else if fromTicker = "NDX" ∧ toTicker = "NQ" then
    some (calculateCarryPremium value params.riskFreeRate params.ndxDivYield params.daysToExp)
  else if fromTicker = "NQ" ∧ toTicker = "NDX" then
    some (value / Real.exp ((params.riskFreeRate / 100 - params.ndxDivYield / 100) *
      (params.daysToExp / 365)))
  else if fromTicker = "SPX" ∧ toTicker = "ES" then
    some (calculateCarryPremium value params.riskFreeRate params.spxDivYield params.daysToExp)
  else if fromTicker = "ES" ∧ toTicker = "SPX" then
    some (value / Real.exp ((params.riskFreeRate / 100 - params.spxDivYield / 100) *
      (params.daysToExp / 365)))
  else some value

/-- The (fromTicker, toTicker) pairs for which `convert` has a conversion
rule (identity aside): one pair per non-identity branch of the source. -/
def convRulePairs : List (String × String) :=
  [("GLD", "GC"), ("GC", "GLD"),
   ("QQQ", "SPY"), ("SPY", "QQQ"),
   ("NDX", "SPX"), ("SPX", "NDX"),
   ("NQ", "ES"), ("ES", "NQ"),
   ("QQQ", "NDX"), ("NDX", "QQQ"),
   ("SPY", "SPX"), ("SPX", "SPY"),
   ("QQQ", "NQ"), ("NQ", "QQQ"),
   ("SPY", "ES"), ("ES", "SPY"),
   ("NDX", "NQ"), ("NQ", "NDX"),
   ("SPX", "ES"), ("ES", "SPX")]

/-! ## `calculatePremiumInfo` (part_002 lines 913–942) -/

/-- The instrument class union type `'NQ' | 'ES' | 'GC'`. -/
inductive TickerType where
  | NQ : TickerType
  | ES : TickerType
  | GC : TickerType

/-- JavaScript `Math.round`: round half toward positive infinity,
`Math.round(x) = Math.floor(x + 0.5)`. -/
noncomputable def jsRound (x : ℝ) : ℝ := (⌊x + 1/2⌋ : ℤ)

/-- Result record of `calculatePremiumInfo`. -/
structure PremiumInfo where
  points : ℝ
  percent : ℝ
  dollars : ℝ
  theoretical : ℝ
  actual : ℝ

/-- `calculatePremiumInfo(spot, futures, tickerType, params)`. -/
noncomputable def calculatePremiumInfo (spot futures : ℝ) (tickerType : TickerType)
    (params : MarketParams) : PremiumInfo :=
  let divYield : ℝ :=
    match tickerType with
    | .NQ => params.ndxDivYield
    | .ES => params.spxDivYield
    | .GC => 0
  let theoreticalFutures :=
    calculateCarryPremium spot params.riskFreeRate divYield params.daysToExp
  let premium := theoreticalFutures - spot
  let premiumPct := premium / spot * 100
  let multiplier : ℝ :=
    match tickerType with
    | .NQ => 20
    | .ES => 50
    | .GC => 100
  let premiumDollars := premium * multiplier
  ⟨jsRound (premium * 100) / 100,
   jsRound (premiumPct * 10000) / 10000,
   jsRound (premiumDollars * 100) / 100,
   jsRound (theoreticalFutures * 100) / 100,
   jsRound (futures * 100) / 100⟩

/-- The claim-side description of `calculatePremiumInfo` (§4.4 of the spec),
written independently from the spec's formulas: dividend yield selected by
instrument class, `theoretical = carryPrice(...)`, and each output rounded
independently from the unrounded intermediates
(`points = round2(theoretical - spot)`,
`percent = round4((theoretical - spot)/spot * 100)`,
`dollars = round2((theoretical - spot) * multiplier)` with multiplier
NQ=20 / ES=50 / GC=100, `theoretical` and `actual` rounded to 2 decimals). -/
noncomputable def premiumInfoSpec (spot futures : ℝ) (tickerType : TickerType)
    (params : MarketParams) : PremiumInfo :=
  let divYield : ℝ :=
    match tickerType with
    | .NQ => params.ndxDivYield
    | .ES => params.spxDivYield
    | .GC => 0
  let theoretical :=
    calculateCarryPremium spot params.riskFreeRate divYield params.daysToExp
  let multiplier : ℝ :=
    match tickerType with
    | .NQ => 20
    | .ES => 50
    | .GC => 100
  ⟨jsRound ((theoretical - spot) * 100) / 100,
   jsRound ((theoretical - spot) / spot * 100 * 10000) / 10000,
   jsRound ((theoretical - spot) * multiplier * 100) / 100,
   jsRound (theoretical * 100) / 100,
   jsRound (futures * 100) / 100⟩

/-! ## `getNextQuarterlyExpiration` (part_002 lines 703–753)

JavaScript `Date` values are modelled by civil dates (proleptic Gregorian
calendar, UTC, exact 86400-second days) via Howard Hinnant's
`days_from_civil` day count, whose epoch day 0 is 1970-01-01 — a Thursday,
so `getDay()` (0 = Sunday … 6 = Saturday) is `(dayNumber + 4) mod 7`.
The current instant is a civil date plus a fractional day `nowFrac ∈ [0, 1)`;
`Math.ceil((target - now) / 86400000)` then equals the whole-day civil
difference for every `nowFrac` in that range (proved in `ceil_day_diff`). -/

/-- Day count of a civil date (1970-01-01 = day 0), Hinnant's algorithm.
`Int` division truncates toward zero; as in the original algorithm the
`era` shift keeps every division argument nonnegative for all dates of
interest, so truncation and flooring agree. -/
def daysFromCivil (y m d : Int) : Int :=
  let y' := y - (if m ≤ 2 then 1 else 0)
  let era := (if 0 ≤ y' then y' else y' - 399) / 400
  let yoe := y' - era * 400
  let doy := (153 * (m + (if 2 < m then -3 else 9)) + 2) / 5 + d - 1
  let doe := yoe * 365 + yoe / 4 - yoe / 100 + doy
  era * 146097 + doe - 719468

/-- `Date.prototype.getDay()` of the civil day number: 0 = Sunday … 5 = Friday. -/
def jsDayOfWeek (days : Int) : Int := (days + 4) % 7

/-- Result of `getNextQuarterlyExpiration`: the source returns the ISO date
string of the third-Friday candidate and the day count; the date string is
modelled by its civil components. -/
structure Expiration where
  year : Int
  month : Int
  day : Int
  days : Int

/-- `getNextQuarterlyExpiration()`, parameterised by the current civil date
`(nowYear, nowMonth, nowDay)` and time-of-day fraction `nowFrac` (the source
reads them from `new Date()`).  The `for … break` scan over `[3, 6, 9, 12]`
is `List.find?`; `daysToExp = Math.max(Math.ceil((target - now)/86400000), 1)`. -/
def getNextQuarterlyExpiration (nowYear nowMonth nowDay : Int) (nowFrac : ℚ) : Expiration :=
  let found := [(3 : Int), 6, 9, 12].find? (fun m => decide (nowMonth < m))
  let nextMonth := found.getD 3
  let expirationYear := if found.isSome then nowYear else nowYear + 1
  let firstDayOfWeek := jsDayOfWeek (daysFromCivil expirationYear nextMonth 1)
  let daysUntilFriday0 := (5 - firstDayOfWeek + 7) % 7
  let daysUntilFriday := if daysUntilFriday0 = 0 then 7 else daysUntilFriday0
  let thirdFridayDay := 1 + daysUntilFriday + 14
  let diffDays : ℚ :=
    ((daysFromCivil expirationYear nextMonth thirdFridayDay -
      daysFromCivil nowYear nowMonth nowDay : Int) : ℚ) - nowFrac
  let daysToExp := max (Int.ceil diffDays) 1
  ⟨expirationYear, nextMonth, thirdFridayDay, daysToExp⟩

/-- A concrete snapshot (the source's `getDefaultMarketData()` values), used
by witness theorems. -/
def sampleMarketData : MarketData :=
  ⟨629, 25993.25, 25748.49, 595, 5961.9, 5950, 305, 3050⟩

/-- Concrete carry parameters (the source's `getDefaultParams()` constants
with 45 days to expiration), used by witness theorems. -/
def sampleParams : MarketParams := ⟨4.5, 0.66, 1.13, 45⟩

/-! # Theorems -/

/-! ## Generic helper lemmas -/

/-- Sanity anchors for the civil day count: the epoch 1970-01-01 is day 0
and a Thursday (`getDay() = 4`), 2000-01-01 is day 10957, and 2024-02-29
exists (2024 is a leap year): 2024-03-01 is one day after 2024-02-29. -/
lemma daysFromCivil_anchor :
    daysFromCivil 1970 1 1 = 0 ∧
    jsDayOfWeek (daysFromCivil 1970 1 1) = 4 ∧
    daysFromCivil 2000 1 1 = 10957 ∧
    daysFromCivil 2024 3 1 = daysFromCivil 2024 2 29 + 1 := by
  decide

/-- `daysFromCivil` is linear in the day-of-month component. -/
lemma daysFromCivil_day_shift (y m d : Int) :
    daysFromCivil y m d = daysFromCivil y m 1 + (d - 1) := by
  simp only [daysFromCivil]
  ring

/-- The day the source labels the third Friday — first-Friday offset forced
to 7 when the 1st is a Friday, plus 14 — always falls on a Friday (even when
it is in fact the fourth Friday). -/
lemma thirdFriday_is_friday (Y M : Int) :
    jsDayOfWeek (daysFromCivil Y M
      (1 + (if (5 - jsDayOfWeek (daysFromCivil Y M 1) + 7) % 7 = 0 then 7
            else (5 - jsDayOfWeek (daysFromCivil Y M 1) + 7) % 7) + 14)) = 5 := by
  rw [daysFromCivil_day_shift]
  generalize daysFromCivil Y M 1 = base
  simp only [jsDayOfWeek]
  split_ifs with h <;> omega

set_option maxHeartbeats 1000000 in
/-- Claim C7: `convert` always returns a number (`some`, never `null`, and
being a total function it never throws), and for every ticker pair that
matches none of the listed conversion rules it returns the input value
unchanged (the identity fallback of the final `return value`). -/
theorem convert_total_and_fallback (value : ℝ) (fromTicker toTicker : String)
    (md : MarketData) (p : MarketParams) :
    (convert value fromTicker toTicker md p).isSome = true ∧
    ((fromTicker, toTicker) ∉ convRulePairs →
      convert value fromTicker toTicker md p = some value) := by
  unfold convert
  by_cases h0 : fromTicker = toTicker
  · rw [if_pos h0]
    exact ⟨rfl, fun _ => rfl⟩
  rw [if_neg h0]
  by_cases h1 : fromTicker = "GLD" ∧ toTicker = "GC"
  · rw [if_pos h1]
    exact ⟨rfl, fun hnot => absurd (by rw [h1.1, h1.2]; decide) hnot⟩
  rw [if_neg h1]
  by_cases h2 : fromTicker = "GC" ∧ toTicker = "GLD"
  · rw [if_pos h2]
    exact ⟨rfl, fun hnot => absurd (by rw [h2.1, h2.2]; decide) hnot⟩
  rw [if_neg h2]
  by_cases h3 : fromTicker = "QQQ" ∧ toTicker = "SPY"
  · rw [if_pos h3]
    exact ⟨rfl, fun hnot => absurd (by rw [h3.1, h3.2]; decide) hnot⟩
  rw [if_neg h3]
  by_cases h4 : fromTicker = "SPY" ∧ toTicker = "QQQ"
  · rw [if_pos h4]
    exact ⟨rfl, fun hnot => absurd (by rw [h4.1, h4.2]; decide) hnot⟩
  rw [if_neg h4]
  by_cases h5 : fromTicker = "NDX" ∧ toTicker = "SPX"
  · rw [if_pos h5]
    exact ⟨rfl, fun hnot => absurd (by rw [h5.1, h5.2]; decide) hnot⟩
  rw [if_neg h5]
  by_cases h6 : fromTicker = "SPX" ∧ toTicker = "NDX"
  · rw [if_pos h6]
    exact ⟨rfl, fun hnot => absurd (by rw [h6.1, h6.2]; decide) hnot⟩
  rw [if_neg h6]
  by_cases h7 : fromTicker = "NQ" ∧ toTicker = "ES"
  · rw [if_pos h7]
    exact ⟨rfl, fun hnot => absurd (by rw [h7.1, h7.2]; decide) hnot⟩
  rw [if_neg h7]
  by_cases h8 : fromTicker = "ES" ∧ toTicker = "NQ"
  · rw [if_pos h8]
    exact ⟨rfl, fun hnot => absurd (by rw [h8.1, h8.2]; decide) hnot⟩
  rw [if_neg h8]
  by_cases h9 : fromTicker = "QQQ" ∧ toTicker = "NDX"
  · rw [if_pos h9]
    exact ⟨rfl, fun hnot => absurd (by rw [h9.1, h9.2]; decide) hnot⟩
  rw [if_neg h9]
  by_cases h10 : fromTicker = "NDX" ∧ toTicker = "QQQ"
  · rw [if_pos h10]
    exact ⟨rfl, fun hnot => absurd (by rw [h10.1, h10.2]; decide) hnot⟩
  rw [if_neg h10]
  by_cases h11 : fromTicker = "SPY" ∧ toTicker = "SPX"
  · rw [if_pos h11]
    exact ⟨rfl, fun hnot => absurd (by rw [h11.1, h11.2]; decide) hnot⟩
  rw [if_neg h11]
  by_cases h12 : fromTicker = "SPX" ∧ toTicker = "SPY"
  · rw [if_pos h12]
    exact ⟨rfl, fun hnot => absurd (by rw [h12.1, h12.2]; decide) hnot⟩
  rw [if_neg h12]
  by_cases h13 : fromTicker = "QQQ" ∧ toTicker = "NQ"
  · rw [if_pos h13]
    exact ⟨rfl, fun hnot => absurd (by rw [h13.1, h13.2]; decide) hnot⟩
  rw [if_neg h13]
  by_cases h14 : fromTicker = "NQ" ∧ toTicker = "QQQ"
  · rw [if_pos h14]
    exact ⟨rfl, fun hnot => absurd (by rw [h14.1, h14.2]; decide) hnot⟩
  rw [if_neg h14]
  by_cases h15 : fromTicker = "SPY" ∧ toTicker = "ES"
  · rw [if_pos h15]
    exact ⟨rfl, fun hnot => absurd (by rw [h15.1, h15.2]; decide) hnot⟩
  rw [if_neg h15]
  by_cases h16 : fromTicker = "ES" ∧ toTicker = "SPY"
  · rw [if_pos h16]
    exact ⟨rfl, fun hnot => absurd (by rw [h16.1, h16.2]; decide) hnot⟩
  rw [if_neg h16]
  by_cases h17 : fromTicker = "NDX" ∧ toTicker = "NQ"
  · rw [if_pos h17]
    exact ⟨rfl, fun hnot => absurd (by rw [h17.1, h17.2]; decide) hnot⟩
  rw [if_neg h17]
  by_cases h18 : fromTicker = "NQ" ∧ toTicker = "NDX"
  · rw [if_pos h18]
    exact ⟨rfl, fun hnot => absurd (by rw [h18.1, h18.2]; decide) hnot⟩
  rw [if_neg h18]
  by_cases h19 : fromTicker = "SPX" ∧ toTicker = "ES"
  · rw [if_pos h19]
    exact ⟨rfl, fun hnot => absurd (by rw [h19.1, h19.2]; decide) hnot⟩
  rw [if_neg h19]
  by_cases h20 : fromTicker = "ES" ∧ toTicker = "SPX"
  · rw [if_pos h20]
    exact ⟨rfl, fun hnot => absurd (by rw [h20.1, h20.2]; decide) hnot⟩
  rw [if_neg h20]
  exact ⟨rfl, fun _ => rfl⟩

/-! ## Claim C9: identity conversion -/

/-- Claim C9: for every ticker `T`, numeric value, snapshot and params,
`convert(x, T, T, snapshot, params)` returns exactly `x` (the first branch of
the source returns the value unchanged when `fromTicker === toTicker`). -/
theorem convert_identity (value : ℝ) (ticker : String) (md : MarketData) (p : MarketParams) :
    convert value ticker ticker md p = some value := by
  simp [convert]

/-! ## Claim C6: carry monotonicity -/

/-- Claim C6: for every positive spot and `daysToExp ≥ 1`,
`calculateCarryPremium` is strictly increasing in the rate argument (dividend
yield and days fixed) and strictly decreasing in the dividend-yield argument
(rate and days fixed). -/
theorem carry_monotone (spot days : ℝ) (hs : 0 < spot) (hd : 1 ≤ days) :
    (∀ d r1 r2, r1 < r2 →
      calculateCarryPremium spot r1 d days < calculateCarryPremium spot r2 d days) ∧
    (∀ r d1 d2, d1 < d2 →
      calculateCarryPremium spot r d2 days < calculateCarryPremium spot r d1 days) := by
  have ht : 0 < days / 365 := by linarith
  constructor
  · intro d r1 r2 h
    simp only [calculateCarryPremium]
    have hlt : (r1 / 100 - d / 100) * (days / 365) < (r2 / 100 - d / 100) * (days / 365) := by
      apply mul_lt_mul_of_pos_right _ ht
      linarith
    exact mul_lt_mul_of_pos_left (Real.exp_lt_exp.mpr hlt) hs
  · intro r d1 d2 h
    simp only [calculateCarryPremium]
    have hlt : (r / 100 - d2 / 100) * (days / 365) < (r / 100 - d1 / 100) * (days / 365) := by
      apply mul_lt_mul_of_pos_right _ ht
      linarith
    exact mul_lt_mul_of_pos_left (Real.exp_lt_exp.mpr hlt) hs

/-- Witness for `carry_monotone` at spot 100, 30 days, rates 1 < 2 and
dividend yields 1 < 2. -/
theorem carry_monotone_witness :
    calculateCarryPremium 100 1 (1/2) 30 < calculateCarryPremium 100 2 (1/2) 30 ∧
    calculateCarryPremium 100 4 2 30 < calculateCarryPremium 100 4 1 30 :=
  ⟨(carry_monotone 100 30 (by norm_num) (by norm_num)).1 (1/2) 1 2 (by norm_num),
   (carry_monotone 100 30 (by norm_num) (by norm_num)).2 4 1 2 (by norm_num)⟩

/-! ## Claim C5: premium analyzer -/

/-- Claim C5: for positive spot and `daysToExp ≥ 1`, `calculatePremiumInfo`
selects the dividend yield by instrument class (`ndxDivYield` for NQ,
`spxDivYield` for ES, zero for GC), computes the carry-theoretical price, and
returns points/percent/dollars/theoretical/actual each rounded independently
from the unrounded intermediates (2/4/2/2/2 decimals, multiplier NQ=20,
ES=50, GC=100), as described by `premiumInfoSpec`. -/
theorem premiumInfo_matches_spec (spot futures : ℝ) (ty : TickerType) (p : MarketParams)
    (hs : 0 < spot) (hd : 1 ≤ p.daysToExp) :
    calculatePremiumInfo spot futures ty p = premiumInfoSpec spot futures ty p := by
  rfl

/-- Witness for `premiumInfo_matches_spec` at spot 100, futures 105, class NQ,
the sample parameters. -/
theorem premiumInfo_matches_spec_witness :
    calculatePremiumInfo 100 105 TickerType.NQ sampleParams =
      premiumInfoSpec 100 105 TickerType.NQ sampleParams :=
  premiumInfo_matches_spec 100 105 TickerType.NQ sampleParams (by norm_num)
    (by norm_num [sampleParams])

/-! ## Claim C4: expiration invariant -/

/-- Claim C4: for every current date (and any time-of-day fraction),
`getNextQuarterlyExpiration` returns `days ≥ 1`, a date falling on a Friday
(JS `getDay() = 5`), and a month among March, June, September, December. -/
theorem expiration_invariant (y mo d : Int) (τ : ℚ) :
    1 ≤ (getNextQuarterlyExpiration y mo d τ).days ∧
    jsDayOfWeek (daysFromCivil (getNextQuarterlyExpiration y mo d τ).year
      (getNextQuarterlyExpiration y mo d τ).month
      (getNextQuarterlyExpiration y mo d τ).day) = 5 ∧
    ((getNextQuarterlyExpiration y mo d τ).month = 3 ∨
     (getNextQuarterlyExpiration y mo d τ).month = 6 ∨
     (getNextQuarterlyExpiration y mo d τ).month = 9 ∨
     (getNextQuarterlyExpiration y mo d τ).month = 12) := by
  simp only [getNextQuarterlyExpiration]
  refine ⟨le_max_right _ _, thirdFriday_is_friday _ _, ?_⟩
  rcases h : [(3 : Int), 6, 9, 12].find? (fun m => decide (mo < m)) with _ | m
  · simp [h]
  · have hm := List.mem_of_find?_eq_some h
    simp only [List.mem_cons, List.mem_singleton] at hm
    simp only [h, Option.getD_some]
    simpa using hm

/-! ## Claim C3: the third-Friday computation -/

/-- Claim C3, evaluated at the failing input: with the current date
2024-01-10 the target quarterly month is March 2024, whose 1st is itself a
Friday.  March 2024 thus has Fridays on the 1st, 8th, 15th, 22nd, 29th, so
its third Friday is the 15th — but the function returns the 22nd (the
`daysUntilFriday || 7` adjustment anchors at the *second* Friday before
adding 14 days).  The CME March 2024 quarterly expiration was 2024-03-15. -/
theorem expiration_thirdFriday_eval :
    (getNextQuarterlyExpiration 2024 1 10 0).year = 2024 ∧
    (getNextQuarterlyExpiration 2024 1 10 0).month = 3 ∧
    (getNextQuarterlyExpiration 2024 1 10 0).day = 22 ∧
    jsDayOfWeek (daysFromCivil 2024 3 1) = 5 ∧
    jsDayOfWeek (daysFromCivil 2024 3 8) = 5 ∧
    jsDayOfWeek (daysFromCivil 2024 3 15) = 5 := by
  decide

/-! ## Branch lemmas for `convert` at literal ticker pairs -/

set_option maxHeartbeats 1000000 in
lemma convert_GLD_GC (x : ℝ) (md : MarketData) (p : MarketParams) :
    convert x "GLD" "GC" md p = some (x * (md.gc / md.gld)) := by
  unfold convert
  rw [if_neg (by decide), if_pos (by decide)]

set_option maxHeartbeats 1000000 in
lemma convert_GC_GLD (x : ℝ) (md : MarketData) (p : MarketParams) :
    convert x "GC" "GLD" md p = some (x * (md.gld / md.gc)) := by
  unfold convert
  rw [if_neg (by decide), if_neg (by decide), if_pos (by decide)]

set_option maxHeartbeats 1000000 in
lemma convert_QQQ_NQ (x : ℝ) (md : MarketData) (p : MarketParams) :
    convert x "QQQ" "NQ" md p = some (x * (md.nq / md.qqq)) := by
  unfold convert
  repeat rw [if_neg (by decide)]
  rw [if_pos (by decide)]

set_option maxHeartbeats 1000000 in
lemma convert_NQ_QQQ (x : ℝ) (md : MarketData) (p : MarketParams) :
    convert x "NQ" "QQQ" md p = some (x * (md.qqq / md.nq)) := by
  unfold convert
  repeat rw [if_neg (by decide)]
  rw [if_pos (by decide)]

set_option maxHeartbeats 1000000 in
lemma convert_SPY_ES (x : ℝ) (md : MarketData) (p : MarketParams) :
    convert x "SPY" "ES" md p = some (x * (md.es / md.spy)) := by
  unfold convert
  repeat rw [if_neg (by decide)]
  rw [if_pos (by decide)]

set_option maxHeartbeats 1000000 in
lemma convert_ES_SPY (x : ℝ) (md : MarketData) (p : MarketParams) :
    convert x "ES" "SPY" md p = some (x * (md.spy / md.es)) := by
  unfold convert
  repeat rw [if_neg (by decide)]
  rw [if_pos (by decide)]

set_option maxHeartbeats 1000000 in
lemma convert_NDX_NQ (x : ℝ) (md : MarketData) (p : MarketParams) :
    convert x "NDX" "NQ" md p =
      some (x * Real.exp ((p.riskFreeRate / 100 - p.ndxDivYield / 100) * (p.daysToExp / 365))) := by
  unfold convert
  repeat rw [if_neg (by decide)]
  rw [if_pos (by decide)]
  rfl

set_option maxHeartbeats 1000000 in
lemma convert_NQ_NDX (x : ℝ) (md : MarketData) (p : MarketParams) :
    convert x "NQ" "NDX" md p =
      some (x / Real.exp ((p.riskFreeRate / 100 - p.ndxDivYield / 100) * (p.daysToExp / 365))) := by
  unfold convert
  repeat rw [if_neg (by decide)]
  rw [if_pos (by decide)]

set_option maxHeartbeats 1000000 in
lemma convert_SPX_ES (x : ℝ) (md : MarketData) (p : MarketParams) :
    convert x "SPX" "ES" md p =
      some (x * Real.exp ((p.riskFreeRate / 100 - p.spxDivYield / 100) * (p.daysToExp / 365))) := by
  unfold convert
  repeat rw [if_neg (by decide)]
  rw [if_pos (by decide)]
  rfl

set_option maxHeartbeats 1000000 in
lemma convert_ES_SPX (x : ℝ) (md : MarketData) (p : MarketParams) :
    convert x "ES" "SPX" md p =
      some (x / Real.exp ((p.riskFreeRate / 100 - p.spxDivYield / 100) * (p.daysToExp / 365))) := by
  unfold convert
  repeat rw [if_neg (by decide)]
  rw [if_pos (by decide)]

/-! ## Claim C1: round-trip through inverse conversion rules -/

/-- Claim C1: for every positive input, positive snapshot prices and
`daysToExp ≥ 1`, converting along any of the ticker pairs NDX/NQ, SPX/ES,
QQQ/NQ, SPY/ES, GLD/GC and back returns the input within 1e-9 relative
tolerance (in exact real arithmetic the round trip is the identity, so the
tolerance bound holds); moreover the future→index direction divides by
exactly the carry multiplier `exp((rate/100 - divYield/100) * daysToExp/365)`
that the index→future direction multiplies by. -/
theorem convert_roundtrip_inverse_pairs (x : ℝ) (md : MarketData) (p : MarketParams)
    (A B : String) (hx : 0 < x)
    (hqqq : 0 < md.qqq) (hnq : 0 < md.nq) (hndx : 0 < md.ndx) (hspy : 0 < md.spy)
    (hes : 0 < md.es) (hspx : 0 < md.spx) (hgld : 0 < md.gld) (hgc : 0 < md.gc)
    (hd : 1 ≤ p.daysToExp)
    (hAB : (A, B) ∈ [("NDX", "NQ"), ("SPX", "ES"), ("QQQ", "NQ"), ("SPY", "ES"), ("GLD", "GC")]) :
    (∃ y z, convert x A B md p = some y ∧ convert y B A md p = some z ∧
      |z - x| ≤ 1 / 1000000000 * x) ∧
    convert x "NDX" "NQ" md p =
      some (x * Real.exp ((p.riskFreeRate / 100 - p.ndxDivYield / 100) * (p.daysToExp / 365))) ∧
    convert x "NQ" "NDX" md p =
      some (x / Real.exp ((p.riskFreeRate / 100 - p.ndxDivYield / 100) * (p.daysToExp / 365))) ∧
    convert x "SPX" "ES" md p =
      some (x * Real.exp ((p.riskFreeRate / 100 - p.spxDivYield / 100) * (p.daysToExp / 365))) ∧
    convert x "ES" "SPX" md p =
      some (x / Real.exp ((p.riskFreeRate / 100 - p.spxDivYield / 100) * (p.daysToExp / 365))) := by
  refine ⟨?_, convert_NDX_NQ x md p, convert_NQ_NDX x md p,
    convert_SPX_ES x md p, convert_ES_SPX x md p⟩
  have htol : (0 : ℝ) ≤ 1 / 1000000000 * x := by positivity
  simp only [List.mem_cons, List.mem_singleton, Prod.mk.injEq] at hAB
  rcases hAB with ⟨rfl, rfl⟩ | ⟨rfl, rfl⟩ | ⟨rfl, rfl⟩ | ⟨rfl, rfl⟩ | ⟨rfl, rfl⟩ | h
  · refine ⟨_, _, convert_NDX_NQ x md p, convert_NQ_NDX _ md p, ?_⟩
    rw [mul_div_cancel_right₀ x (Real.exp_ne_zero _), sub_self, abs_zero]
    exact htol
  · refine ⟨_, _, convert_SPX_ES x md p, convert_ES_SPX _ md p, ?_⟩
    rw [mul_div_cancel_right₀ x (Real.exp_ne_zero _), sub_self, abs_zero]
    exact htol
  · refine ⟨_, _, convert_QQQ_NQ x md p, convert_NQ_QQQ _ md p, ?_⟩
    have hz : x * (md.nq / md.qqq) * (md.qqq / md.nq) = x := by
      field_simp
    rw [hz, sub_self, abs_zero]
    exact htol
  · refine ⟨_, _, convert_SPY_ES x md p, convert_ES_SPY _ md p, ?_⟩
    have hz : x * (md.es / md.spy) * (md.spy / md.es) = x := by
      field_simp
    rw [hz, sub_self, abs_zero]
    exact htol
  · refine ⟨_, _, convert_GLD_GC x md p, convert_GC_GLD _ md p, ?_⟩
    have hz : x * (md.gc / md.gld) * (md.gld / md.gc) = x := by
      field_simp
    rw [hz, sub_self, abs_zero]
    exact htol
  · exact absurd h (List.not_mem_nil _)

/-- Witness for `convert_roundtrip_inverse_pairs` at x = 100, the sample
snapshot and parameters, and the pair QQQ/NQ. -/
theorem convert_roundtrip_witness :
    (∃ y z, convert 100 "QQQ" "NQ" sampleMarketData sampleParams = some y ∧
      convert y "NQ" "QQQ" sampleMarketData sampleParams = some z ∧
      |z - 100| ≤ 1 / 1000000000 * 100) ∧
    convert 100 "NDX" "NQ" sampleMarketData sampleParams =
      some (100 * Real.exp ((sampleParams.riskFreeRate / 100 - sampleParams.ndxDivYield / 100) *
        (sampleParams.daysToExp / 365))) ∧
    convert 100 "NQ" "NDX" sampleMarketData sampleParams =
      some (100 / Real.exp ((sampleParams.riskFreeRate / 100 - sampleParams.ndxDivYield / 100) *
        (sampleParams.daysToExp / 365))) ∧
    convert 100 "SPX" "ES" sampleMarketData sampleParams =
      some (100 * Real.exp ((sampleParams.riskFreeRate / 100 - sampleParams.spxDivYield / 100) *
        (sampleParams.daysToExp / 365))) ∧
    convert 100 "ES" "SPX" sampleMarketData sampleParams =
      some (100 / Real.exp ((sampleParams.riskFreeRate / 100 - sampleParams.spxDivYield / 100) *
        (sampleParams.daysToExp / 365))) :=
  convert_roundtrip_inverse_pairs 100 sampleMarketData sampleParams "QQQ" "NQ"
    (by norm_num) (by norm_num [sampleMarketData]) (by norm_num [sampleMarketData])
    (by norm_num [sampleMarketData]) (by norm_num [sampleMarketData])
    (by norm_num [sampleMarketData]) (by norm_num [sampleMarketData])
    (by norm_num [sampleMarketData]) (by norm_num [sampleMarketData])
    (by norm_num [sampleParams]) (by decide)

/-! ## Claim C10: block-trade totality -/

/-- Claim C10: for fewer than 20 bars `analyzeBlockTrades` returns
`blockFlow = 0` and direction NEUTRAL via the early return; and for 20 or
more bars of equal volume (zero standard deviation) the z-score divisor
`stdVolume || 1` is 1, so the function never divides by zero. -/
theorem blockTrades_short_circuit_and_flat_divisor (bars : List OHLCVBar) (c : ℚ) :
    (bars.length < 20 → analyzeBlockTrades bars = ⟨0, "NEUTRAL"⟩) ∧
    (20 ≤ bars.length → (∀ b ∈ bars, b.volume = c) → blockDivisor bars = 1) := by
  constructor
  · intro h
    simp [analyzeBlockTrades, h]
  · intro hlen hall
    have hstd : blockStd bars = 0 := by
      have hmem : ∀ x ∈ bars.map (fun b => ((b.volume : ℚ) : ℝ)), x = ((c : ℚ) : ℝ) := by
        intro x hx
        rcases List.mem_map.mp hx with ⟨b, hb, rfl⟩
        exact_mod_cast congrArg (fun q : ℚ => (q : ℝ)) (hall b hb)
      have hrep := List.eq_replicate_of_mem hmem
      rw [List.length_map] at hrep
      have hn : ((bars.length : ℝ)) ≠ 0 := Nat.cast_ne_zero.mpr (by omega)
      simp only [blockStd, hrep, List.length_replicate, List.map_replicate,
        List.sum_replicate, nsmul_eq_mul]
      have hz : ((c : ℚ) : ℝ) - (bars.length : ℝ) * ((c : ℚ) : ℝ) / (bars.length : ℝ) = 0 := by
        field_simp
      rw [hz]
      simp
    simp [blockDivisor, hstd]

/-- Witness for `blockTrades_short_circuit_and_flat_divisor`: a 1-bar list
takes the early return, and 20 equal-volume bars give divisor 1. -/
theorem blockTrades_witness :
    analyzeBlockTrades [⟨1, 2, 1, 2, 1000⟩] = ⟨0, "NEUTRAL"⟩ ∧
    blockDivisor (List.replicate 20 ⟨1, 2, 1, 2, 1000⟩) = 1 :=
  ⟨(blockTrades_short_circuit_and_flat_divisor [⟨1, 2, 1, 2, 1000⟩] 1000).1 (by decide),
   (blockTrades_short_circuit_and_flat_divisor (List.replicate 20 ⟨1, 2, 1, 2, 1000⟩) 1000).2
     (by decide) (by intro b hb; rw [List.eq_of_mem_replicate hb])⟩

/-! ## Claim C8: order-flow imbalance divisors -/

/-- The loop sum with skipped bars equals the sum of `ofiTerm` over the
non-skipped bars. -/
lemma ofi_sum_skip (l : List OHLCVBar) :
    (l.map (fun bar => if bar.high - bar.low = 0 then 0 else ofiTerm bar)).sum
      = ((l.filter (fun bar => decide (bar.high - bar.low ≠ 0))).map ofiTerm).sum := by
  induction l with
  | nil => rfl
  | cons a l ih =>
    by_cases h : a.high - a.low = 0 <;>
      simp [List.filter_cons, h, ih]

/-- Claim C8 (counterexample): it is not true that every evaluated bar of
the order-flow loop has a nonzero volume divisor — a bar with nonzero range
but zero volume is not skipped, and its term divides by `volume = 0`
(`0/0 = NaN` in the JavaScript source). -/
theorem ofi_zero_volume_divisor_counterexample :
    ¬ ∀ (bars : List OHLCVBar), ∀ b ∈ ofiEvaluatedBars bars, b.volume ≠ 0 := by
  intro h
  exact h [⟨0, 1, 0, 1, 0⟩] ⟨0, 1, 0, 1, 0⟩ (by simp [ofiEvaluatedBars, takeLast]) rfl

/-- Claim C8 as amended: when every bar with nonzero range has nonzero
volume, each evaluated bar has a nonzero volume divisor and nonzero range,
and the returned imbalance is the sum of the per-bar terms over the
evaluated bars divided by the length of the last-10 window. -/
theorem ofi_divisor_and_mean (bars : List OHLCVBar)
    (hv : ∀ b ∈ bars, b.high - b.low ≠ 0 → b.volume ≠ 0) :
    (∀ b ∈ ofiEvaluatedBars bars, b.volume ≠ 0 ∧ b.high - b.low ≠ 0) ∧
    (calculateOrderFlowImbalance bars).ofi =
      ((ofiEvaluatedBars bars).map ofiTerm).sum / ((takeLast 10 bars).length : ℚ) := by
  constructor
  · intro b hb
    rw [ofiEvaluatedBars, List.mem_filter] at hb
    have hrange : b.high - b.low ≠ 0 := by simpa using hb.2
    have hmem : b ∈ bars := List.drop_subset _ _ hb.1
    exact ⟨hv b hmem hrange, hrange⟩
  · by_cases h0 : bars.length = 0
    · rw [List.length_eq_zero] at h0
      subst h0
      simp [calculateOrderFlowImbalance, ofiEvaluatedBars, takeLast]
    · simp only [calculateOrderFlowImbalance, if_neg h0, ofiEvaluatedBars]
      rw [ofi_sum_skip]

/-- Witness for `ofi_divisor_and_mean` on a one-bar list with positive
volume and range. -/
theorem ofi_divisor_and_mean_witness :
    (∀ b ∈ ofiEvaluatedBars [⟨0, 2, 0, 1, 5⟩], b.volume ≠ 0 ∧ b.high - b.low ≠ 0) ∧
    (calculateOrderFlowImbalance [⟨0, 2, 0, 1, 5⟩]).ofi =
      ((ofiEvaluatedBars [⟨0, 2, 0, 1, 5⟩]).map ofiTerm).sum /
        ((takeLast 10 [(⟨0, 2, 0, 1, 5⟩ : OHLCVBar)]).length : ℚ) :=
  ofi_divisor_and_mean [⟨0, 2, 0, 1, 5⟩] (by
    intro b hb hr
    rw [List.mem_singleton] at hb
    subst hb
    norm_num)

/-- Witness for `convert_total_and_fallback` at the unsupported pair
FOO/BAR: the result is `some` of the unchanged input. -/
theorem convert_fallback_witness :
    (convert 5 "FOO" "BAR" sampleMarketData sampleParams).isSome = true ∧
    convert 5 "FOO" "BAR" sampleMarketData sampleParams = some 5 :=
  ⟨(convert_total_and_fallback 5 "FOO" "BAR" sampleMarketData sampleParams).1,
   (convert_total_and_fallback 5 "FOO" "BAR" sampleMarketData sampleParams).2 (by decide)⟩

/-! ## Helper lemmas for the volume-profile invariant (claim C2) -/

lemma foldl_min_le_init {α : Type} [LinearOrder α] (l : List α) (a : α) :
    l.foldl min a ≤ a := by
  induction l generalizing a with
  | nil => exact le_refl a
  | cons x l ih => exact le_trans (ih (min a x)) (min_le_left a x)

lemma foldl_min_le_mem {α : Type} [LinearOrder α] (l : List α) (a x : α) (hx : x ∈ l) :
    l.foldl min a ≤ x := by
  induction l generalizing a with
  | nil => cases hx
  | cons y l ih =>
    rcases List.mem_cons.mp hx with rfl | h
    · exact le_trans (foldl_min_le_init l (min a x)) (min_le_right a x)
    · exact ih _ h

lemma le_foldl_max_init {α : Type} [LinearOrder α] (l : List α) (a : α) :
    a ≤ l.foldl max a := by
  induction l generalizing a with
  | nil => exact le_refl a
  | cons x l ih => exact le_trans (le_max_left a x) (ih (max a x))

lemma le_foldl_max_mem {α : Type} [LinearOrder α] (l : List α) (a x : α) (hx : x ∈ l) :
    x ≤ l.foldl max a := by
  induction l generalizing a with
  | nil => cases hx
  | cons y l ih =>
    rcases List.mem_cons.mp hx with rfl | h
    · exact le_trans (le_max_right a x) (le_foldl_max_init l (max a x))
    · exact ih _ h

lemma listMin_le_of_mem {x : ℚ} {l : List ℚ} (h : x ∈ l) : listMin l ≤ x := by
  cases l with
  | nil => cases h
  | cons a as =>
    rcases List.mem_cons.mp h with rfl | h
    · exact foldl_min_le_init as x
    · exact foldl_min_le_mem as a x h

lemma le_listMax_of_mem {x : ℚ} {l : List ℚ} (h : x ∈ l) : x ≤ listMax l := by
  cases l with
  | nil => cases h
  | cons a as =>
    rcases List.mem_cons.mp h with rfl | h
    · exact le_foldl_max_init as x
    · exact le_foldl_max_mem as a x h

lemma listMinN_le_of_mem {x : Nat} {l : List Nat} (h : x ∈ l) : listMinN l ≤ x := by
  cases l with
  | nil => cases h
  | cons a as =>
    rcases List.mem_cons.mp h with rfl | h
    · exact foldl_min_le_init as x
    · exact foldl_min_le_mem as a x h

lemma le_listMaxN_of_mem {x : Nat} {l : List Nat} (h : x ∈ l) : x ≤ listMaxN l := by
  cases l with
  | nil => cases h
  | cons a as =>
    rcases List.mem_cons.mp h with rfl | h
    · exact le_foldl_max_init as x
    · exact le_foldl_max_mem as a x h

lemma sum_map_add {α : Type} (l : List α) (f g : α → ℚ) :
    (l.map (fun x => f x + g x)).sum = (l.map f).sum + (l.map g).sum := by
  induction l with
  | nil => simp
  | cons a l ih =>
    simp only [List.map_cons, List.sum_cons, ih]
    ring

lemma sum_single_ite (q : Nat → Bool) (k : Nat) (x : ℚ) :
    ∀ (l : List Nat), l.Nodup → k ∈ l →
      ((l.filter q).map (fun j => if k = j then x else 0)).sum = if q k then x else 0 := by
  intro l
  induction l with
  | nil => intro _ hk; cases hk
  | cons a as ih =>
    intro hnd hk
    have hnd' := (List.nodup_cons.mp hnd).2
    rcases List.mem_cons.mp hk with rfl | hmem
    · have hkas : k ∉ as := (List.nodup_cons.mp hnd).1
      have hzero : ((as.filter q).map (fun j => if k = j then x else 0)).sum = 0 := by
        apply List.sum_eq_zero
        intro y hy
        rcases List.mem_map.mp hy with ⟨j, hj, rfl⟩
        have hja : j ∈ as := List.mem_of_mem_filter hj
        have hkj : k ≠ j := fun he => hkas (he ▸ hja)
        simp [hkj]
      rw [List.filter_cons]
      by_cases hq : q k
      · simp [hq, hzero]
      · simp [hq, hzero]
    · have hka : k ≠ a := by
        intro he
        subst he
        exact (List.nodup_cons.mp hnd).1 hmem
      rw [List.filter_cons]
      by_cases hq : q a
      · simp only [hq, if_true, List.map_cons, List.sum_cons, if_neg hka, zero_add]
        exact ih hnd' hmem
      · simp only [hq, if_false]
        exact ih hnd' hmem

lemma sum_le_sum_of_nodup_subset (l1 l2 : List Nat) (f : Nat → ℚ)
    (h1 : l1.Nodup) (h2 : l2.Nodup) (hsub : ∀ x ∈ l1, x ∈ l2) (hf : ∀ k, 0 ≤ f k) :
    (l1.map f).sum ≤ (l2.map f).sum := by
  rw [← List.sum_toFinset f h1, ← List.sum_toFinset f h2]
  apply Finset.sum_le_sum_of_subset_of_nonneg
  · intro x hx
    exact List.mem_toFinset.mpr (hsub x (List.mem_toFinset.mp hx))
  · intro i _ _
    exact hf i

lemma mem_insertDesc (t : Nat → ℚ) (x : Nat) (s : List Nat) (y : Nat) :
    y ∈ insertDesc t x s ↔ y = x ∨ y ∈ s := by
  induction s with
  | nil => simp [insertDesc]
  | cons a as ih =>
    by_cases h : t x > t a
    · simp [insertDesc, h]
    · simp only [insertDesc, if_neg h, List.mem_cons, ih]
      tauto

lemma insertDesc_perm (t : Nat → ℚ) (x : Nat) (s : List Nat) :
    List.Perm (insertDesc t x s) (x :: s) := by
  induction s with
  | nil => rfl
  | cons a as ih =>
    by_cases h : t x > t a
    · simp [insertDesc, h]
    · simp only [insertDesc, if_neg h]
      exact (ih.cons a).trans (List.Perm.swap x a as)

lemma foldl_insertDesc_perm (t : Nat → ℚ) :
    ∀ (l acc : List Nat),
      List.Perm (l.foldl (fun acc x => insertDesc t x acc) acc) (l ++ acc) := by
  intro l
  induction l with
  | nil => intro acc; simp
  | cons x l ih =>
    intro acc
    simp only [List.foldl_cons, List.cons_append]
    exact ((ih _).trans (List.Perm.append_left l (insertDesc_perm t x acc))).trans
      List.perm_middle

lemma sortDesc_perm (t : Nat → ℚ) (l : List Nat) : List.Perm (sortDesc t l) l := by
  have h := foldl_insertDesc_perm t l []
  rw [List.append_nil] at h
  exact h

lemma takeVA_sublist (t : Nat → ℚ) (θ : ℚ) :
    ∀ (l : List Nat) (c : ℚ), List.Sublist (takeVA t θ l c) l := by
  intro l
  induction l with
  | nil => intro c; simp [takeVA]
  | cons b rest ih =>
    intro c
    simp only [takeVA]
    split_ifs
    · exact (List.nil_sublist rest).cons₂ b
    · exact (ih _).cons₂ b

lemma takeVA_head (t : Nat → ℚ) (θ : ℚ) (b : Nat) (rest : List Nat) (c : ℚ) :
    (takeVA t θ (b :: rest) c).head? = some b := by
  simp only [takeVA]
  split_ifs <;> rfl

lemma takeVA_sum (t : Nat → ℚ) (θ : ℚ) :
    ∀ (l : List Nat) (c : ℚ),
      θ ≤ c + ((takeVA t θ l c).map t).sum ∨ takeVA t θ l c = l := by
  intro l
  induction l with
  | nil => intro c; right; rfl
  | cons b rest ih =>
    intro c
    simp only [takeVA]
    by_cases h : θ ≤ c + t b
    · left
      rw [if_pos h]
      simpa using h
    · rw [if_neg h]
      rcases ih (c + t b) with h1 | h1
      · left
        simp only [List.map_cons, List.sum_cons]
        linarith
      · right
        rw [h1]

lemma binPartition_sum (g : OHLCVBar → Nat) (v : OHLCVBar → ℚ) (q : Nat → Bool) (n : Nat) :
    ∀ (l : List OHLCVBar), (∀ a ∈ l, g a < n) →
      (((List.range n).filter q).map
          (fun k => (l.map (fun a => if g a = k then v a else 0)).sum)).sum
        = ((l.filter (fun a => q (g a))).map v).sum := by
  intro l
  induction l with
  | nil =>
    intro _
    simp only [List.map_nil, List.sum_nil, List.filter_nil]
    apply List.sum_eq_zero
    intro y hy
    rcases List.mem_map.mp hy with ⟨j, _, rfl⟩
    rfl
  | cons a l ih =>
    intro h
    have ha : g a < n := h a (List.mem_cons_self a l)
    have hl : ∀ b ∈ l, g b < n := fun b hb => h b (List.mem_cons_of_mem a hb)
    have hsplit :
        (((List.range n).filter q).map
            (fun k => ((a :: l).map (fun x => if g x = k then v x else 0)).sum)).sum
          = (((List.range n).filter q).map
              (fun k => if g a = k then v a else 0)).sum
            + (((List.range n).filter q).map
                (fun k => (l.map (fun x => if g x = k then v x else 0)).sum)).sum := by
      rw [← sum_map_add]
      congr 1
    rw [hsplit, ih hl,
      sum_single_ite q (g a) (v a) (List.range n) (List.nodup_range n) (List.mem_range.mpr ha),
      List.filter_cons]
    by_cases hq : q (g a)
    · simp [hq]
    · simp [hq]

lemma pocFold_invariant (t : Nat → ℚ) (ht : ∀ k, 0 ≤ t k) :
    ∀ (l s : List Nat) (j : Nat) (m : ℚ),
      (∀ y ∈ s, t y ≤ m) → 0 ≤ m → (m ≠ 0 → s.head? = some j ∧ t j = m) →
      (∀ y ∈ l.foldl (fun acc x => insertDesc t x acc) s, t y ≤ (l.foldl (pocStep t) (j, m)).2) ∧
      0 ≤ (l.foldl (pocStep t) (j, m)).2 ∧
      ((l.foldl (pocStep t) (j, m)).2 ≠ 0 →
        (l.foldl (fun acc x => insertDesc t x acc) s).head? =
          some (l.foldl (pocStep t) (j, m)).1 ∧
        t (l.foldl (pocStep t) (j, m)).1 = (l.foldl (pocStep t) (j, m)).2) := by
  intro l
  induction l with
  | nil =>
    intro s j m h1 h2 h3
    exact ⟨h1, h2, h3⟩
  | cons x l ih =>
    intro s j m h1 h2 h3
    simp only [List.foldl_cons]
    by_cases hxm : t x > m
    · have hstep : pocStep t (j, m) x = (x, t x) := by
        simp [pocStep, hxm]
      rw [hstep]
      apply ih
      · intro y hy
        rcases (mem_insertDesc t x s y).mp hy with rfl | hys
        · exact le_refl _
        · exact le_trans (h1 y hys) (le_of_lt hxm)
      · exact ht x
      · intro _
        refine ⟨?_, rfl⟩
        cases s with
        | nil => rfl
        | cons a as =>
          have hlt : t x > t a := lt_of_le_of_lt (h1 a (List.mem_cons_self a as)) hxm
          simp [insertDesc, hlt]
    · have hstep : pocStep t (j, m) x = (j, m) := by
        simp [pocStep, hxm]
      rw [hstep]
      apply ih
      · intro y hy
        rcases (mem_insertDesc t x s y).mp hy with rfl | hys
        · exact le_of_not_lt hxm
        · exact h1 y hys
      · exact h2
      · intro hm0
        rcases h3 hm0 with ⟨hhead, htj⟩
        cases s with
        | nil => simp at hhead
        | cons a as =>
          have ha : a = j := by simpa using hhead
          subst ha
          have hnot : ¬ t x > t a := by
            rw [htj]
            exact hxm
          refine ⟨?_, htj⟩
          simp [insertDesc, hnot]

lemma binIdxOf_lt (bars : List OHLCVBar) (bins : Nat) (hbins : 0 < bins) (bar : OHLCVBar) :
    binIdxOf bars bins bar < bins := by
  unfold binIdxOf
  generalize Int.floor ((midPrice bar - vpMinPrice bars) / vpBinSize bars bins) = w
  have h1 : min (max w 0) ((bins : Int) - 1) ≤ (bins : Int) - 1 := min_le_right _ _
  have h2 : (0 : Int) ≤ min (max w 0) ((bins : Int) - 1) :=
    le_min (le_max_right _ _) (by omega)
  omega

lemma binTotal_nonneg (bars : List OHLCVBar) (bins : Nat)
    (hvol : ∀ b ∈ bars, 0 ≤ b.volume) (k : Nat) : 0 ≤ binTotal bars bins k := by
  apply List.sum_nonneg
  intro x hx
  rcases List.mem_map.mp hx with ⟨a, ha, rfl⟩
  by_cases h : binIdxOf bars bins a = k
  · simpa [h] using hvol a ha
  · simp [h]

lemma presentBins_nodup (bars : List OHLCVBar) (bins : Nat) :
    (presentBins bars bins).Nodup :=
  (List.nodup_range bins).filter _

lemma mem_presentBins (bars : List OHLCVBar) (bins : Nat) (hbins : 0 < bins)
    (a : OHLCVBar) (ha : a ∈ bars) : binIdxOf bars bins a ∈ presentBins bars bins := by
  unfold presentBins
  refine List.mem_filter.mpr ⟨List.mem_range.mpr (binIdxOf_lt bars bins hbins a), ?_⟩
  rw [List.any_eq_true]
  exact ⟨a, ha, by simp⟩

lemma binPartition_binTotal (bars : List OHLCVBar) (bins : Nat) (q : Nat → Bool)
    (hbins : 0 < bins) :
    (((List.range bins).filter q).map (binTotal bars bins)).sum
      = ((bars.filter (fun a => q (binIdxOf bars bins a))).map (fun b => b.volume)).sum := by
  exact binPartition_sum (binIdxOf bars bins) (fun b => b.volume) q bins bars
    (fun a _ => binIdxOf_lt bars bins hbins a)

lemma totalVolume_eq (bars : List OHLCVBar) (bins : Nat) (hbins : 0 < bins) :
    totalVolume bars bins = (bars.map (fun b => b.volume)).sum := by
  have h1 : totalVolume bars bins
      = (((List.range bins).filter
            (fun k => bars.any (fun bar => decide (binIdxOf bars bins bar = k)))).map
          (binTotal bars bins)).sum := rfl
  rw [h1, binPartition_binTotal bars bins _ hbins]
  have hfe : bars.filter
      (fun a => bars.any (fun bar => decide (binIdxOf bars bins bar = binIdxOf bars bins a)))
        = bars := by
    apply List.filter_eq_self.mpr
    intro a ha
    rw [List.any_eq_true]
    exact ⟨a, ha, by simp⟩
  rw [hfe]

lemma vpBinSize_pos (bars : List OHLCVBar) (bins : Nat) (hne : bars ≠ []) (hbins : 0 < bins)
    (hlh : ∀ b ∈ bars, b.low ≤ b.high) : 0 < vpBinSize bars bins := by
  have hle : vpMinPrice bars ≤ vpMaxPrice bars := by
    rcases bars with _ | ⟨b0, rest⟩
    · exact absurd rfl hne
    · have h1 : vpMinPrice (b0 :: rest) ≤ b0.low :=
        listMin_le_of_mem (List.mem_map_of_mem (fun b => b.low) (List.mem_cons_self b0 rest))
      have h2 : b0.high ≤ vpMaxPrice (b0 :: rest) :=
        le_listMax_of_mem (List.mem_map_of_mem (fun b => b.high) (List.mem_cons_self b0 rest))
      have h3 : b0.low ≤ b0.high := hlh b0 (List.mem_cons_self b0 rest)
      linarith
  have hb : (0 : ℚ) < (bins : ℚ) := by exact_mod_cast hbins
  simp only [vpBinSize]
  by_cases hpr : vpMaxPrice bars - vpMinPrice bars = 0
  · rw [if_pos hpr]
    positivity
  · rw [if_neg hpr]
    have : 0 < vpMaxPrice bars - vpMinPrice bars := lt_of_le_of_ne (by linarith) (Ne.symm hpr)
    positivity

lemma sortedBins_head_eq_pocBin (bars : List OHLCVBar) (bins : Nat)
    (ht : ∀ k, 0 ≤ binTotal bars bins k)
    (hposP : ∃ k ∈ presentBins bars bins, 0 < binTotal bars bins k) :
    (sortedBins bars bins).head? = some (pocBin bars bins) := by
  obtain ⟨k, hkP, hk⟩ := hposP
  have hinv := pocFold_invariant (binTotal bars bins) ht (presentBins bars bins) [] 0 0
    (by intro y hy; cases hy) (le_refl 0) (by intro h; exact absurd rfl h)
  rcases hinv with ⟨H1, H2, H3⟩
  have hks : k ∈ (presentBins bars bins).foldl
      (fun acc x => insertDesc (binTotal bars bins) x acc) [] := by
    have hperm := sortDesc_perm (binTotal bars bins) (presentBins bars bins)
    exact (hperm.mem_iff).mpr hkP
  have hM : ((presentBins bars bins).foldl (pocStep (binTotal bars bins)) (0, 0)).2 ≠ 0 :=
    (lt_of_lt_of_le hk (H1 k hks)).ne'
  exact (H3 hM).1

/-- Claim C2 as amended: for every non-empty window of OHLCV bars with
`low ≤ high` and nonnegative volumes, of which at least one is positive, the
profile satisfies `valueAreaLow ≤ poc ≤ valueAreaHigh`, and the total volume
of the bars whose bin index lies between the lowest and highest value-area
bin (the bins spanned by `[valueAreaLow, valueAreaHigh]`) is at least 70% of
the window's total volume. -/
theorem volumeProfile_invariant (bars : List OHLCVBar) (bins : Nat)
    (hne : bars ≠ []) (hbins : 0 < bins)
    (hlh : ∀ b ∈ bars, b.low ≤ b.high)
    (hvol : ∀ b ∈ bars, 0 ≤ b.volume)
    (hpos : ∃ b ∈ bars, 0 < b.volume) :
    (calculateVolumeProfile bars bins).valueAreaLow ≤ (calculateVolumeProfile bars bins).poc ∧
    (calculateVolumeProfile bars bins).poc ≤ (calculateVolumeProfile bars bins).valueAreaHigh ∧
    7 / 10 * (bars.map (fun b => b.volume)).sum ≤
      ((bars.filter (fun b =>
        decide (vaMinBin bars bins ≤ binIdxOf bars bins b ∧
          binIdxOf bars bins b ≤ vaMaxBin bars bins))).map (fun b => b.volume)).sum := by
  have hlen : ¬ bars.length = 0 := fun h => hne (List.length_eq_zero.mp h)
  have ht : ∀ k, 0 ≤ binTotal bars bins k := binTotal_nonneg bars bins hvol
  obtain ⟨bp, hbp, hbpv⟩ := hpos
  have hposP : ∃ k ∈ presentBins bars bins, 0 < binTotal bars bins k := by
    refine ⟨binIdxOf bars bins bp, mem_presentBins bars bins hbins bp hbp, ?_⟩
    have hnn : ∀ x ∈ bars.map
        (fun a => if binIdxOf bars bins a = binIdxOf bars bins bp then a.volume else 0),
        0 ≤ x := by
      intro x hx
      rcases List.mem_map.mp hx with ⟨a, ha, rfl⟩
      by_cases hia : binIdxOf bars bins a = binIdxOf bars bins bp
      · simpa [hia] using hvol a ha
      · simp [hia]
    have hmem := List.mem_map_of_mem
      (fun a => if binIdxOf bars bins a = binIdxOf bars bins bp then a.volume else 0) hbp
    have hle := List.single_le_sum hnn _ hmem
    simp only [if_pos rfl] at hle
    exact lt_of_lt_of_le hbpv hle
  have hhead := sortedBins_head_eq_pocBin bars bins ht hposP
  obtain ⟨b0, rest, hsb⟩ : ∃ b0 rest, sortedBins bars bins = b0 :: rest := by
    cases hsbc : sortedBins bars bins with
    | nil => rw [hsbc] at hhead; cases hhead
    | cons b0 rest => exact ⟨b0, rest, rfl⟩
  have hb0 : b0 = pocBin bars bins := by
    rw [hsb] at hhead
    simpa using hhead
  have hVAhead : (valueAreaBins bars bins).head? = some (pocBin bars bins) := by
    have hVA : valueAreaBins bars bins
        = takeVA (binTotal bars bins) (totalVolume bars bins * (7/10))
            (sortedBins bars bins) 0 := rfl
    rw [hVA, hsb, takeVA_head]
    exact congrArg some hb0
  have hpocVA : pocBin bars bins ∈ valueAreaBins bars bins := by
    cases hv : valueAreaBins bars bins with
    | nil => rw [hv] at hVAhead; cases hVAhead
    | cons c cs =>
      rw [hv] at hVAhead
      have : c = pocBin bars bins := by simpa using hVAhead
      rw [← this]
      exact List.mem_cons_self c cs
  have hmn : vaMinBin bars bins ≤ pocBin bars bins := listMinN_le_of_mem hpocVA
  have hmx : pocBin bars bins ≤ vaMaxBin bars bins := le_listMaxN_of_mem hpocVA
  have hbs : 0 < vpBinSize bars bins := vpBinSize_pos bars bins hne hbins hlh
  have hvp : calculateVolumeProfile bars bins =
      ⟨vpPoc bars bins, vpValueAreaHigh bars bins, vpValueAreaLow bars bins,
       vpBiggestBuyersBelow bars bins, vpBiggestSellersAbove bars bins⟩ := by
    unfold calculateVolumeProfile
    rw [if_neg hlen]
  refine ⟨?_, ?_, ?_⟩
  · rw [hvp]
    show vpValueAreaLow bars bins ≤ vpPoc bars bins
    unfold vpValueAreaLow vpPoc
    have hc : (vaMinBin bars bins : ℚ) ≤ (pocBin bars bins : ℚ) := by exact_mod_cast hmn
    nlinarith [hbs, hc]
  · rw [hvp]
    show vpPoc bars bins ≤ vpValueAreaHigh bars bins
    unfold vpPoc vpValueAreaHigh
    have hc : (pocBin bars bins : ℚ) ≤ (vaMaxBin bars bins : ℚ) := by exact_mod_cast hmx
    nlinarith [hbs, hc]
  · have hva_nodup : (valueAreaBins bars bins).Nodup := by
      have hsnodup : (sortedBins bars bins).Nodup :=
        ((sortDesc_perm (binTotal bars bins) (presentBins bars bins)).nodup_iff).mpr
          (presentBins_nodup bars bins)
      exact List.Nodup.sublist (takeVA_sublist _ _ _ _) hsnodup
    have hq_nodup : ((List.range bins).filter
        (fun k => decide (vaMinBin bars bins ≤ k ∧ k ≤ vaMaxBin bars bins))).Nodup :=
      (List.nodup_range bins).filter _
    have hsub : ∀ x ∈ valueAreaBins bars bins,
        x ∈ (List.range bins).filter
          (fun k => decide (vaMinBin bars bins ≤ k ∧ k ≤ vaMaxBin bars bins)) := by
      intro x hx
      have hxs : x ∈ sortedBins bars bins := (takeVA_sublist _ _ _ _).subset hx
      have hxP : x ∈ presentBins bars bins :=
        ((sortDesc_perm (binTotal bars bins) (presentBins bars bins)).mem_iff).mp hxs
      have hxr : x < bins := List.mem_range.mp (List.mem_of_mem_filter hxP)
      refine List.mem_filter.mpr ⟨List.mem_range.mpr hxr, ?_⟩
      simp only [decide_eq_true_eq]
      exact ⟨listMinN_le_of_mem hx, le_listMaxN_of_mem hx⟩
    have hcap : ((valueAreaBins bars bins).map (binTotal bars bins)).sum ≤
        (((List.range bins).filter
          (fun k => decide (vaMinBin bars bins ≤ k ∧ k ≤ vaMaxBin bars bins))).map
            (binTotal bars bins)).sum :=
      sum_le_sum_of_nodup_subset _ _ _ hva_nodup hq_nodup hsub ht
    have hthr : totalVolume bars bins * (7/10) ≤
        ((valueAreaBins bars bins).map (binTotal bars bins)).sum := by
      rcases takeVA_sum (binTotal bars bins) (totalVolume bars bins * (7/10))
          (sortedBins bars bins) 0 with h | h
      · simpa using h
      · have hva_eq : valueAreaBins bars bins = sortedBins bars bins := h
        rw [hva_eq]
        have hps : ((sortedBins bars bins).map (binTotal bars bins)).sum
            = ((presentBins bars bins).map (binTotal bars bins)).sum :=
          ((sortDesc_perm (binTotal bars bins) (presentBins bars bins)).map
            (binTotal bars bins)).sum_eq
        rw [hps]
        have h0 : 0 ≤ ((presentBins bars bins).map (binTotal bars bins)).sum := by
          apply List.sum_nonneg
          intro x hx
          rcases List.mem_map.mp hx with ⟨j, _, rfl⟩
          exact ht j
        have heq : totalVolume bars bins
            = ((presentBins bars bins).map (binTotal bars bins)).sum := rfl
        rw [← heq] at h0 ⊢
        linarith
    have hfinal : (((List.range bins).filter
        (fun k => decide (vaMinBin bars bins ≤ k ∧ k ≤ vaMaxBin bars bins))).map
          (binTotal bars bins)).sum
        = ((bars.filter (fun b =>
            decide (vaMinBin bars bins ≤ binIdxOf bars bins b ∧
              binIdxOf bars bins b ≤ vaMaxBin bars bins))).map (fun b => b.volume)).sum :=
      binPartition_binTotal bars bins _ hbins
    have htv := totalVolume_eq bars bins hbins
    calc 7 / 10 * (bars.map (fun b => b.volume)).sum
        = totalVolume bars bins * (7/10) := by rw [htv]; ring
      _ ≤ ((valueAreaBins bars bins).map (binTotal bars bins)).sum := hthr
      _ ≤ (((List.range bins).filter
            (fun k => decide (vaMinBin bars bins ≤ k ∧ k ≤ vaMaxBin bars bins))).map
              (binTotal bars bins)).sum := hcap
      _ = _ := hfinal

/-- Claim C2 (counterexample): at the two-bar window
`[{open: 50, high: 100, low: 0, close: 50, volume: 0},
  {open: 100, high: 101, low: 99, close: 100, volume: 0}]`
(valid OHLCV bars, all volumes zero) the bars land in bins 24 and 49, every
bin total is 0, so the POC loop never updates its `pocBin = 0` initializer
while the value area is `[bin 24]`: `poc = 1.01 < 48.48 = valueAreaLow`. -/
theorem volumeProfile_claim_counterexample :
    ¬ ((calculateVolumeProfile [⟨50, 100, 0, 50, 0⟩, ⟨100, 101, 99, 100, 0⟩] 50).valueAreaLow ≤
       (calculateVolumeProfile [⟨50, 100, 0, 50, 0⟩, ⟨100, 101, 99, 100, 0⟩] 50).poc) := by
  have h1 : vpMinPrice [⟨50, 100, 0, 50, 0⟩, ⟨100, 101, 99, 100, 0⟩] = 0 := by
    norm_num [vpMinPrice, listMin]
  have h3 : vpBinSize [⟨50, 100, 0, 50, 0⟩, ⟨100, 101, 99, 100, 0⟩] 50 = 101 / 50 := by
    have h2 : vpMaxPrice [⟨50, 100, 0, 50, 0⟩, ⟨100, 101, 99, 100, 0⟩] = 101 := by
      norm_num [vpMaxPrice, listMax]
    norm_num [vpBinSize, h1, h2]
  have hA : binIdxOf [⟨50, 100, 0, 50, 0⟩, ⟨100, 101, 99, 100, 0⟩] 50 ⟨50, 100, 0, 50, 0⟩ = 24 := by
    have h4 : (⌊(midPrice ⟨50, 100, 0, 50, 0⟩ -
        vpMinPrice [⟨50, 100, 0, 50, 0⟩, ⟨100, 101, 99, 100, 0⟩]) /
        vpBinSize [⟨50, 100, 0, 50, 0⟩, ⟨100, 101, 99, 100, 0⟩] 50⌋ : ℤ) = 24 := by
      rw [h1, h3]
      norm_num [midPrice]
    unfold binIdxOf
    rw [h4]
    decide
  have hB : binIdxOf [⟨50, 100, 0, 50, 0⟩, ⟨100, 101, 99, 100, 0⟩] 50 ⟨100, 101, 99, 100, 0⟩ = 49 := by
    have h4 : (⌊(midPrice ⟨100, 101, 99, 100, 0⟩ -
        vpMinPrice [⟨50, 100, 0, 50, 0⟩, ⟨100, 101, 99, 100, 0⟩]) /
        vpBinSize [⟨50, 100, 0, 50, 0⟩, ⟨100, 101, 99, 100, 0⟩] 50⌋ : ℤ) = 49 := by
      rw [h1, h3]
      norm_num [midPrice]
    unfold binIdxOf
    rw [h4]
    decide
  have hP : presentBins [⟨50, 100, 0, 50, 0⟩, ⟨100, 101, 99, 100, 0⟩] 50 = [24, 49] := by
    have hrw : presentBins [⟨50, 100, 0, 50, 0⟩, ⟨100, 101, 99, 100, 0⟩] 50
        = (List.range 50).filter (fun b => decide (24 = b) || decide (49 = b)) := by
      simp only [presentBins, List.any_cons, List.any_nil, hA, hB, Bool.or_false]
    rw [hrw]
    decide
  have htz : ∀ k, binTotal [⟨50, 100, 0, 50, 0⟩, ⟨100, 101, 99, 100, 0⟩] 50 k = 0 := by
    intro k
    simp [binTotal]
  have hpoc : pocBin [⟨50, 100, 0, 50, 0⟩, ⟨100, 101, 99, 100, 0⟩] 50 = 0 := by
    unfold pocBin
    rw [hP]
    simp [pocStep, htz]
  have hsorted : sortedBins [⟨50, 100, 0, 50, 0⟩, ⟨100, 101, 99, 100, 0⟩] 50 = [24, 49] := by
    unfold sortedBins sortDesc
    rw [hP]
    simp [insertDesc, htz]
  have htotal : totalVolume [⟨50, 100, 0, 50, 0⟩, ⟨100, 101, 99, 100, 0⟩] 50 = 0 := by
    unfold totalVolume
    rw [hP]
    simp [htz]
  have hVA : valueAreaBins [⟨50, 100, 0, 50, 0⟩, ⟨100, 101, 99, 100, 0⟩] 50 = [24] := by
    unfold valueAreaBins
    rw [hsorted, htotal]
    simp [takeVA, htz]
  have hmn : vaMinBin [⟨50, 100, 0, 50, 0⟩, ⟨100, 101, 99, 100, 0⟩] 50 = 24 := by
    unfold vaMinBin
    rw [hVA]
    rfl
  have hlen : ¬ (([⟨50, 100, 0, 50, 0⟩, ⟨100, 101, 99, 100, 0⟩] : List OHLCVBar).length = 0) := by
    decide
  simp only [calculateVolumeProfile, if_neg hlen]
  unfold vpValueAreaLow vpPoc
  rw [h1, h3, hpoc, hmn]
  norm_num

/-- Witness for `volumeProfile_invariant` at a one-bar window with positive
volume. -/
theorem volumeProfile_invariant_witness :
    (calculateVolumeProfile [⟨10, 12, 8, 11, 100⟩] 50).valueAreaLow ≤
      (calculateVolumeProfile [⟨10, 12, 8, 11, 100⟩] 50).poc ∧
    (calculateVolumeProfile [⟨10, 12, 8, 11, 100⟩] 50).poc ≤
      (calculateVolumeProfile [⟨10, 12, 8, 11, 100⟩] 50).valueAreaHigh ∧
    7 / 10 * (([⟨10, 12, 8, 11, 100⟩] : List OHLCVBar).map (fun b => b.volume)).sum ≤
      ((([⟨10, 12, 8, 11, 100⟩] : List OHLCVBar).filter (fun b =>
        decide (vaMinBin [⟨10, 12, 8, 11, 100⟩] 50 ≤ binIdxOf [⟨10, 12, 8, 11, 100⟩] 50 b ∧
          binIdxOf [⟨10, 12, 8, 11, 100⟩] 50 b ≤ vaMaxBin [⟨10, 12, 8, 11, 100⟩] 50))).map
            (fun b => b.volume)).sum :=
  volumeProfile_invariant [⟨10, 12, 8, 11, 100⟩] 50 (by simp) (by norm_num)
    (by intro b hb; rw [List.mem_singleton] at hb; subst hb; norm_num)
    (by intro b hb; rw [List.mem_singleton] at hb; subst hb; norm_num)
    ⟨⟨10, 12, 8, 11, 100⟩, List.mem_singleton.mpr rfl, by norm_num⟩
